import Mathlib

set_option autoImplicit false
set_option linter.unusedVariables false

/-!
Verification development for the PunchAFriend server-authoritative
networking and state-synchronization layer.

Each definition is a shallow embedding of a function or data structure of
the Rust sources; the doc comment of every definition names the source
location it is translated from.  Machine integers are modelled as `Nat`
with explicit `% 2 ^ 32` where wrap-around matters; payload data the code
never inspects (transforms, velocities, pawn attributes) is carried by
type parameters.
-/

namespace PunchAFriend

/-! ## Client-side tick synchronization

Model of the pawn branch of `handle_server_output`
(`src/bin/client/systems.rs`, lines 76-163) together with
`UniqueLastTickCount` (`src/bin/client/app/lib.rs`, lines 5-25).
`T`, `V`, `P` stand for the engine types `Transform`, `Velocity` and the
non-identifying payload of a `Pawn`; the code moves these values around
without inspecting them. -/

/-- A pawn as carried in tick messages: the wire identity (`Uuid`,
modelled as `Nat`) plus the rest of the `Pawn` data. -/
structure PawnM (P : Type) where
  id : Nat
  data : P
deriving DecidableEq, Repr

/-- The `PawnUpdate` message of `src/networking/mod.rs` (lines 132-153):
position, velocity, pawn payload and the sending tick's count. -/
structure PawnUpdate (T V P : Type) where
  position : T
  velocity : V
  player : PawnM P
  tick_count : Nat
deriving DecidableEq, Repr

/-- A client-side shadow entity: the components queried by
`handle_server_output` (`Pawn`, `Transform`, `Velocity`,
`UniqueLastTickCount`). -/
structure ClientEntity (T V P : Type) where
  pawn : PawnM P
  transform : T
  velocity : V
  last_tick_count : Nat
deriving DecidableEq, Repr

variable {T V P : Type}

/-- The update applied to a matching entity by `handle_server_output`
(`src/bin/client/systems.rs`, lines 100-122): if the stored
`UniqueLastTickCount` is strictly below the incoming `tick_count`, pawn,
transform and velocity are overwritten and the new tick count recorded;
otherwise the entity is left untouched. -/
def updateEntity (e : ClientEntity T V P) (u : PawnUpdate T V P) : ClientEntity T V P :=
  if e.last_tick_count < u.tick_count then
    ⟨u.player, u.position, u.velocity, u.tick_count⟩
  else e

/-- The spawn performed by `handle_server_output` when no local entity
matches (`src/bin/client/systems.rs`, lines 139-159): the new shadow
entity is seeded with the tick's pawn, position and velocity, but its
`UniqueLastTickCount` is `UniqueLastTickCount::new(0)` (line 148), not the
tick's count. -/
def spawnFromUpdate (u : PawnUpdate T V P) : ClientEntity T V P :=
  ⟨u.player, u.position, u.velocity, 0⟩

/-- One delivered `PawnUpdate` applied to the client's entity list.  The
source iterates the player query with `.any`, updating the first entity
whose pawn id matches and short-circuiting; if none matches, a new shadow
entity is spawned. -/
def applyPawnUpdate : List (ClientEntity T V P) → PawnUpdate T V P → List (ClientEntity T V P)
  | [], u => [spawnFromUpdate u]
  | e :: rest, u =>
    if e.pawn.id = u.player.id then updateEntity e u :: rest
    else e :: applyPawnUpdate rest u

/-- A whole sequence of delivered `PawnUpdate`s applied in delivery
order (the `while let Ok(..) = try_recv()` drain loop). -/
def applyPawnUpdates (world : List (ClientEntity T V P)) (ticks : List (PawnUpdate T V P)) :
    List (ClientEntity T V P) :=
  ticks.foldl applyPawnUpdate world

/-- First entity of the client world carrying the given pawn id; this is
the entity the `.any` iteration of `handle_server_output` settles on. -/
def lookupEntity : List (ClientEntity T V P) → Nat → Option (ClientEntity T V P)
  | [], _ => none
  | e :: rest, i => if e.pawn.id = i then some e else lookupEntity rest i

theorem lookupEntity_applyPawnUpdate {world : List (ClientEntity T V P)}
    {u : PawnUpdate T V P} {i : Nat} {e : ClientEntity T V P}
    (h : lookupEntity world i = some e) (hid : u.player.id = i) :
    lookupEntity (applyPawnUpdate world u) i = some (updateEntity e u) := by
  induction world with
  | nil => simp [lookupEntity] at h
  | cons f rest ih =>
    by_cases hf : f.pawn.id = i
    · have he : f = e := by
        simp [lookupEntity, hf] at h
        exact h
      subst he
      have : (updateEntity f u).pawn.id = i := by
        unfold updateEntity
        split
        · exact hid
        · exact hf
      simp [applyPawnUpdate, hf, hid, lookupEntity, this]
    · have hne : ¬ f.pawn.id = u.player.id := by
        rw [hid]; exact hf
      simp [lookupEntity, hf] at h
      simp [applyPawnUpdate, hne, lookupEntity, hf]
      exact ih h

theorem lookupEntity_applyPawnUpdates {L : List (PawnUpdate T V P)} :
    ∀ {world : List (ClientEntity T V P)} {i : Nat} {e : ClientEntity T V P},
    lookupEntity world i = some e → (∀ u ∈ L, u.player.id = i) →
    lookupEntity (applyPawnUpdates world L) i = some (L.foldl updateEntity e) := by
  induction L with
  | nil => intro world i e h _; exact h
  | cons u L' ih =>
    intro world i e h hall
    have h1 : lookupEntity (applyPawnUpdate world u) i = some (updateEntity e u) :=
      lookupEntity_applyPawnUpdate h (hall u (by simp))
    have h2 : ∀ v ∈ L', v.player.id = i := fun v hv => hall v (by simp [hv])
    exact ih h1 h2

theorem foldl_updateEntity_stale {e : ClientEntity T V P} {L : List (PawnUpdate T V P)}
    (h : ∀ u ∈ L, u.tick_count ≤ e.last_tick_count) :
    L.foldl updateEntity e = e := by
  induction L with
  | nil => rfl
  | cons u L' ih =>
    have hu : u.tick_count ≤ e.last_tick_count := h u (by simp)
    have : updateEntity e u = e := by
      unfold updateEntity
      split
    -- the guard `last_tick_count < tick_count` contradicts staleness
      · omega
      · rfl
    rw [List.foldl_cons, this]
    exact ih (fun v hv => h v (by simp [hv]))

theorem foldl_updateEntity_max {L : List (PawnUpdate T V P)} :
    ∀ {e : ClientEntity T V P} {m : PawnUpdate T V P},
    m ∈ L → e.last_tick_count < m.tick_count →
    (∀ u ∈ L, u = m ∨ u.tick_count < m.tick_count) →
    L.foldl updateEntity e = ⟨m.player, m.position, m.velocity, m.tick_count⟩ := by
  induction L with
  | nil => intro e m hm; simp at hm
  | cons u L' ih =>
    intro e m hm hlt hmax
    by_cases hum : u = m
    · subst hum
      have happ : updateEntity e u = ⟨u.player, u.position, u.velocity, u.tick_count⟩ := by
        unfold updateEntity
        split
        · rfl
        · omega
      rw [List.foldl_cons, happ]
      apply foldl_updateEntity_stale
      intro v hv
      rcases hmax v (by simp [hv]) with h | h
      · subst h; simp
      · simp; omega
    · have hm' : m ∈ L' := by
        rcases List.mem_cons.mp hm with h | h
        · exact absurd h.symm hum
        · exact h
      have hu : u.tick_count < m.tick_count := by
        rcases hmax u (by simp) with h | h
        · exact absurd h hum
        · exact h
      have hlt' : (updateEntity e u).last_tick_count < m.tick_count := by
        unfold updateEntity
        split
        · exact hu
        · exact hlt
      rw [List.foldl_cons]
      exact ih hm' hlt' (fun v hv => hmax v (by simp [hv]))

theorem applyPawnUpdate_stale {world : List (ClientEntity T V P)}
    {u : PawnUpdate T V P} {i : Nat} {e : ClientEntity T V P}
    (h : lookupEntity world i = some e) (hid : u.player.id = i)
    (hst : u.tick_count ≤ e.last_tick_count) :
    applyPawnUpdate world u = world := by
  induction world with
  | nil => simp [lookupEntity] at h
  | cons f rest ih =>
    by_cases hf : f.pawn.id = i
    · have he : f = e := by
        simp [lookupEntity, hf] at h
        exact h
      subst he
      have : updateEntity f u = f := by
        unfold updateEntity
        split
        · omega
        · rfl
      simp [applyPawnUpdate, hf, hid, this]
    · have hne : ¬ f.pawn.id = u.player.id := by
        rw [hid]; exact hf
      simp [lookupEntity, hf] at h
      simp [applyPawnUpdate, hne]
      exact ih h

/-- C2: for an entity already known to the client, a tick whose
`tick_count` is at most the recorded `UniqueLastTickCount` changes
nothing (stale ticks are silently discarded); an accepted tick records
exactly its own, strictly larger, count (so accepted counts are strictly
increasing); and applying the same tick twice equals applying it once. -/
theorem claim_C2_stale_tick_discard {world : List (ClientEntity T V P)}
    {u : PawnUpdate T V P} {i : Nat} {e : ClientEntity T V P}
    (h : lookupEntity world i = some e) (hid : u.player.id = i) :
    (u.tick_count ≤ e.last_tick_count → applyPawnUpdate world u = world)
    ∧ (e.last_tick_count < u.tick_count →
        lookupEntity (applyPawnUpdate world u) i =
          some ⟨u.player, u.position, u.velocity, u.tick_count⟩)
    ∧ applyPawnUpdate (applyPawnUpdate world u) u = applyPawnUpdate world u := by
  refine ⟨fun hst => applyPawnUpdate_stale h hid hst, fun hlt => ?_, ?_⟩
  · have := lookupEntity_applyPawnUpdate h hid
    rw [this]
    unfold updateEntity
    split
    · rfl
    · omega
  · rcases le_or_lt u.tick_count e.last_tick_count with hst | hlt
    · rw [applyPawnUpdate_stale h hid hst, applyPawnUpdate_stale h hid hst]
    · have h' : lookupEntity (applyPawnUpdate world u) i =
          some ⟨u.player, u.position, u.velocity, u.tick_count⟩ := by
        have := lookupEntity_applyPawnUpdate h hid
        rw [this]
        unfold updateEntity
        split
        · rfl
        · omega
      exact applyPawnUpdate_stale h' hid (Nat.le_refl _)

/-- Witness for C2 at a concrete world: the entity with id 7 has last
tick 5 and receives a duplicate of that same tick. -/
theorem claim_C2_stale_tick_discard_witness :
    lookupEntity [(⟨⟨7, 1⟩, 10, 2, 5⟩ : ClientEntity Nat Nat Nat)] 7 = some ⟨⟨7, 1⟩, 10, 2, 5⟩
    ∧ (⟨99, 98, ⟨7, 3⟩, 5⟩ : PawnUpdate Nat Nat Nat).player.id = 7
    ∧ applyPawnUpdate [(⟨⟨7, 1⟩, 10, 2, 5⟩ : ClientEntity Nat Nat Nat)] ⟨99, 98, ⟨7, 3⟩, 5⟩
        = [⟨⟨7, 1⟩, 10, 2, 5⟩] :=
  ⟨by decide, by decide,
    (@claim_C2_stale_tick_discard Nat Nat Nat [⟨⟨7, 1⟩, 10, 2, 5⟩] ⟨99, 98, ⟨7, 3⟩, 5⟩ 7
      ⟨⟨7, 1⟩, 10, 2, 5⟩ (by decide) (by decide)).1 (by decide)⟩

/-- C1 (counterexample): two ticks for the same unknown entity, the one
with the greatest `tick_count` delivered first.  The spawn path records
`UniqueLastTickCount::new(0)` instead of the spawning tick's count, so the
later, smaller-count tick is still accepted: the final transform is 20
(the count-3 tick's), not 10 (the count-5 tick's), and the two delivery
orders disagree. -/
theorem claim_C1_counterexample :
    lookupEntity
        (applyPawnUpdates ([] : List (ClientEntity Nat Nat Nat))
          [⟨10, 0, ⟨7, 0⟩, 5⟩, ⟨20, 0, ⟨7, 0⟩, 3⟩]) 7
      = some ⟨⟨7, 0⟩, 20, 0, 3⟩
    ∧ applyPawnUpdates ([] : List (ClientEntity Nat Nat Nat))
          [⟨10, 0, ⟨7, 0⟩, 5⟩, ⟨20, 0, ⟨7, 0⟩, 3⟩]
      ≠ applyPawnUpdates ([] : List (ClientEntity Nat Nat Nat))
          [⟨20, 0, ⟨7, 0⟩, 3⟩, ⟨10, 0, ⟨7, 0⟩, 5⟩] := by
  constructor
  · decide
  · decide

/-- C1 (amended): sequence-based last-writer-wins is order-independent
for an entity that is already known to the client before delivery: if all
delivered ticks address entity `i`, one tick `m` strictly dominates every
other delivered tick's count, and the entity's recorded last tick is
below `m.tick_count`, then after applying the ticks in any delivery order
(the list `L` is arbitrary) the entity holds exactly the data of `m`.
The original claim's spawn case is excluded: the spawn path records last
tick 0 rather than the spawning tick's count (see the counterexample). -/
theorem claim_C1_last_writer_wins {world : List (ClientEntity T V P)}
    {L : List (PawnUpdate T V P)} {i : Nat} {e : ClientEntity T V P}
    {m : PawnUpdate T V P}
    (h : lookupEntity world i = some e) (hall : ∀ u ∈ L, u.player.id = i)
    (hm : m ∈ L) (hlt : e.last_tick_count < m.tick_count)
    (hmax : ∀ u ∈ L, u = m ∨ u.tick_count < m.tick_count) :
    lookupEntity (applyPawnUpdates world L) i =
      some ⟨m.player, m.position, m.velocity, m.tick_count⟩ := by
  rw [lookupEntity_applyPawnUpdates h hall]
  exact congrArg some (foldl_updateEntity_max hm hlt hmax)

/-- Witness for C1 (amended): entity 7 is already known with last tick 0;
the greatest tick (count 5) is delivered first, the count-3 tick second,
and the final state is the count-5 tick's data. -/
theorem claim_C1_last_writer_wins_witness :
    lookupEntity [(⟨⟨7, 9⟩, 100, 0, 0⟩ : ClientEntity Nat Nat Nat)] 7 = some ⟨⟨7, 9⟩, 100, 0, 0⟩
    ∧ lookupEntity
        (applyPawnUpdates [(⟨⟨7, 9⟩, 100, 0, 0⟩ : ClientEntity Nat Nat Nat)]
          [⟨10, 1, ⟨7, 2⟩, 5⟩, ⟨20, 1, ⟨7, 2⟩, 3⟩]) 7
      = some ⟨⟨7, 2⟩, 10, 1, 5⟩ :=
  ⟨by decide,
    @claim_C1_last_writer_wins Nat Nat Nat [⟨⟨7, 9⟩, 100, 0, 0⟩]
      [⟨10, 1, ⟨7, 2⟩, 5⟩, ⟨20, 1, ⟨7, 2⟩, 3⟩] 7 ⟨⟨7, 9⟩, 100, 0, 0⟩ ⟨10, 1, ⟨7, 2⟩, 5⟩
      (by decide) (by decide) (by decide) (by decide) (by decide)⟩

/-! ## Map voting and the intermission state machine

Model of the winner selection and intermission handling in `frame`
(`src/bin/server/systems.rs`, lines 415-677) and of the vote data of
`src/networking/mod.rs`. -/

/-- The `MapNameDiscriminants` enum derived from `MapName`
(`src/game/map.rs`, lines 212-219). -/
inductive MapNameD where
  | FlatGround
  | Islands
deriving DecidableEq, Repr

/-- Reduction step of Rust's `Iterator::max_by_key(|e| e.1)` on the
`selectable_maps` entries (`src/bin/server/systems.rs`, lines 479-480):
the running maximum is kept only when its key is strictly greater, so on
ties the later element replaces it (Rust documents that `max_by_key`
returns the last of several equally maximal elements). -/
def maxBySndAux {α : Type} (a : α × Nat) : List (α × Nat) → α × Nat
  | [] => a
  | x :: t => if a.2 > x.2 then maxBySndAux a t else maxBySndAux x t

/-- Rust's `iter().max_by_key(|e| e.1)`: `none` on an empty list,
otherwise the fold above seeded with the first element. -/
def maxBySnd {α : Type} : List (α × Nat) → Option (α × Nat)
  | [] => none
  | a :: t => some (maxBySndAux a t)

theorem maxBySndAux_last_max {α : Type} (t : List (α × Nat)) :
    ∀ a : α × Nat,
    ∃ l1 l2, a :: t = l1 ++ maxBySndAux a t :: l2
      ∧ (∀ x ∈ l1, x.2 ≤ (maxBySndAux a t).2)
      ∧ (∀ x ∈ l2, x.2 < (maxBySndAux a t).2) := by
  induction t with
  | nil => intro a; exact ⟨[], [], rfl, by simp, by simp⟩
  | cons b t' ih =>
    intro a
    by_cases h : a.2 > b.2
    · obtain ⟨l1, l2, hdec, h1, h2⟩ := ih a
      have hres : maxBySndAux a (b :: t') = maxBySndAux a t' := by
        simp [maxBySndAux, h]
      rw [hres]
      cases l1 with
      | nil =>
        simp only [List.nil_append] at hdec
        injection hdec with hhead htail
        have hsnd : a.2 = (maxBySndAux a t').2 := congrArg Prod.snd hhead
        refine ⟨[], b :: t', ?_, by simp, ?_⟩
        · simp only [List.nil_append]
          rw [← hhead]
        · intro x hx
          rcases List.mem_cons.mp hx with hx | hx
          · subst hx
            omega
          · exact h2 x (htail ▸ hx)
      | cons c l1' =>
        rw [List.cons_append] at hdec
        injection hdec with hhead htail
        have hca : a.2 ≤ (maxBySndAux a t').2 := by
          have := h1 c (by simp)
          rw [← hhead] at this
          exact this
        refine ⟨a :: b :: l1', l2, ?_, ?_, h2⟩
        · simp only [List.cons_append]
          exact congrArg (List.cons a) (congrArg (List.cons b) htail)
        · intro x hx
          rcases List.mem_cons.mp hx with hx | hx
          · subst hx; exact hca
          rcases List.mem_cons.mp hx with hx | hx
          · subst hx; omega
          · exact h1 x (by simp [hx])
    · obtain ⟨l1, l2, hdec, h1, h2⟩ := ih b
      have hres : maxBySndAux a (b :: t') = maxBySndAux b t' := by
        simp [maxBySndAux, h]
      rw [hres]
      have hb : b.2 ≤ (maxBySndAux b t').2 := by
        cases l1 with
        | nil =>
          simp only [List.nil_append] at hdec
          injection hdec with hhead _
          exact Nat.le_of_eq (congrArg Prod.snd hhead)
        | cons c l1' =>
          rw [List.cons_append] at hdec
          injection hdec with hhead _
          have := h1 c (by simp)
          rw [← hhead] at this
          exact this
      refine ⟨a :: l1, l2, ?_, ?_, h2⟩
      · rw [List.cons_append, ← hdec]
      · intro x hx
        rcases List.mem_cons.mp hx with hx | hx
        · subst hx; omega
        · exact h1 x hx

/-- C3 (counterexample): with `selectable_maps = [(FlatGround, 1),
(Islands, 1)]` both maps share the highest vote count; the earliest such
entry is `FlatGround`, but `max_by_key` yields the later entry
`Islands`. -/
theorem claim_C3_counterexample :
    maxBySnd [(MapNameD.FlatGround, 1), (MapNameD.Islands, 1)] = some (MapNameD.Islands, 1)
    ∧ maxBySnd [(MapNameD.FlatGround, 1), (MapNameD.Islands, 1)]
      ≠ some (MapNameD.FlatGround, 1) := by
  constructor
  · decide
  · decide

/-- C3 (amended): the winning map is an entry with the highest vote count
and, when several entries share that count, it is the LAST such entry in
the list's original iteration order (every earlier entry has a
less-or-equal count, every later entry a strictly smaller one); no
further tiebreak is applied. -/
theorem claim_C3_winner_last_max (l : List (MapNameD × Nat)) (h : l ≠ []) :
    ∃ m l1 l2, maxBySnd l = some m ∧ l = l1 ++ m :: l2
      ∧ (∀ x ∈ l1, x.2 ≤ m.2) ∧ (∀ x ∈ l2, x.2 < m.2) := by
  cases l with
  | nil => exact absurd rfl h
  | cons a t =>
    obtain ⟨l1, l2, hdec, h1, h2⟩ := maxBySndAux_last_max t a
    exact ⟨maxBySndAux a t, l1, l2, rfl, hdec, h1, h2⟩

/-- Witness for C3 (amended) on the tally `[(FlatGround, 1),
(Islands, 0)]`. -/
theorem claim_C3_winner_last_max_witness :
    [(MapNameD.FlatGround, 1), (MapNameD.Islands, 0)] ≠ []
    ∧ ∃ m l1 l2, maxBySnd [(MapNameD.FlatGround, 1), (MapNameD.Islands, 0)] = some m
      ∧ [(MapNameD.FlatGround, 1), (MapNameD.Islands, 0)] = l1 ++ m :: l2
      ∧ (∀ x ∈ l1, x.2 ≤ m.2) ∧ (∀ x ∈ l2, x.2 < m.2) :=
  ⟨by decide, claim_C3_winner_last_max _ (by decide)⟩

/-- A bevy `Timer` as the state machine consumes it: only whether it has
finished matters to the modelled code paths. -/
structure TimerM where
  finished : Bool
deriving DecidableEq, Repr

/-- A loaded map.  `MapInstance::map_flatground` / `map_islands`
(`src/game/map.rs`) build distinct object lists with fresh UUIDs; the
claims only depend on which map was loaded, so `into_map_instance`
(`src/game/map.rs`, lines 222-230) is modelled as the injective
constructor `ofName`. -/
inductive MapInstanceM where
  | ofName (n : MapNameD)
deriving DecidableEq, Repr

/-- The `IntermissionData` of `src/networking/mod.rs` (lines 99-115);
dates are modelled as `Nat` timestamps. -/
structure IntermissionData where
  selectable_maps : List (MapNameD × Nat)
  intermission_end_date : Nat
deriving DecidableEq, Repr

/-- The `OngoingGameData` of `src/networking/mod.rs` (lines 73-88). -/
structure OngoingGameData where
  current_map : MapInstanceM
  round_end_date : Nat
deriving DecidableEq, Repr

/-- The `ServerGameState` of `src/networking/mod.rs` (lines 62-70). -/
inductive ServerGameState where
  | Pause
  | Intermission (d : IntermissionData)
  | OngoingGame (d : OngoingGameData)
deriving DecidableEq, Repr

/-- The server-side state touched by the intermission logic of `frame`
(`src/bin/server/systems.rs`): the authoritative game state, the two
timers and vote total of `ApplicationCtx`, and the connected-clients map
(only its keys matter here, modelled as a list of addresses). -/
structure ServerAppState where
  game_state : ServerGameState
  intermission_timer : Option TimerM
  game_round_timer : Option TimerM
  intermission_total_votes : Nat
  connected_clients : List Nat
deriving DecidableEq, Repr

/-- The intermission-end check of `frame` (`src/bin/server/systems.rs`,
lines 467-525): with an intermission timer present, if the countdown has
finished or the vote total equals the number of connected clients (and
some client is connected), the winning map is selected with
`max_by_key`, the game state becomes `OngoingGame` with that map and a
round end 8 minutes (480 s) from now, the intermission timer is cleared,
a fresh (unfinished) 8-minute round timer is installed and the vote
total is reset to 0. -/
def frameIntermissionCheck (now : Nat) (s : ServerAppState) : ServerAppState :=
  match s.intermission_timer with
  | none => s
  | some timer =>
    if timer.finished = true
        ∨ (s.intermission_total_votes = s.connected_clients.length
            ∧ s.connected_clients ≠ []) then
      match s.game_state with
      | ServerGameState.Intermission d =>
        match maxBySnd d.selectable_maps with
        | some m =>
          ⟨ServerGameState.OngoingGame ⟨MapInstanceM.ofName m.1, now + 480⟩,
            none, some ⟨false⟩, 0, s.connected_clients⟩
        | none => ⟨s.game_state, none, some ⟨false⟩, 0, s.connected_clients⟩
      | _ => ⟨s.game_state, none, some ⟨false⟩, 0, s.connected_clients⟩
    else s

/-- The vote-counter increment of `frame` (`src/bin/server/systems.rs`,
lines 545-551): `position` finds the first entry whose map name equals
the voted one and its counter is incremented by one; other entries are
untouched. -/
def incrementVote : List (MapNameD × Nat) → MapNameD → List (MapNameD × Nat)
  | [], _ => []
  | (m, c) :: rest, v => if m = v then (m, c + 1) :: rest else (m, c) :: incrementVote rest v

/-- Handling of one received `ClientRequest::Vote` message by `frame`
(`src/bin/server/systems.rs`, lines 533-560).  The receive happens inside
the `if let Some(timer) = intermission_timer` block; while the state is
`Intermission` and the voted map occurs in `selectable_maps`, its counter
and the total vote count are incremented.  The sender id is used only to
broadcast the vote, never to deduplicate votes. -/
def processVote (s : ServerAppState) (sender : Nat) (v : MapNameD) : ServerAppState :=
  match s.intermission_timer with
  | none => s
  | some _ =>
    match s.game_state with
    | ServerGameState.Intermission d =>
      if v ∈ d.selectable_maps.map Prod.fst then
        ⟨ServerGameState.Intermission
            ⟨incrementVote d.selectable_maps v, d.intermission_end_date⟩,
          s.intermission_timer, s.game_round_timer, s.intermission_total_votes + 1,
          s.connected_clients⟩
      else s
    | _ => s

/-- C4: while in intermission, the transition to `OngoingGame` fires
exactly when the countdown has finished or the vote total equals the
(positive) number of connected clients; it loads the `max_by_key` winner,
stores an `OngoingGameData` with a fresh round end (now + 480 s), clears
the intermission timer, installs a fresh round timer and resets the vote
tally; when neither condition holds, nothing changes. -/
theorem claim_C4_intermission_transition {s : ServerAppState} {t : TimerM} (now : Nat)
    (ht : s.intermission_timer = some t) :
    ((t.finished = true
        ∨ (s.intermission_total_votes = s.connected_clients.length
            ∧ s.connected_clients ≠ [])) →
      ∀ d m, s.game_state = ServerGameState.Intermission d →
        maxBySnd d.selectable_maps = some m →
        frameIntermissionCheck now s =
          ⟨ServerGameState.OngoingGame ⟨MapInstanceM.ofName m.1, now + 480⟩,
            none, some ⟨false⟩, 0, s.connected_clients⟩)
    ∧ (¬ (t.finished = true
        ∨ (s.intermission_total_votes = s.connected_clients.length
            ∧ s.connected_clients ≠ [])) →
      frameIntermissionCheck now s = s) := by
  obtain ⟨gs, it, rt, votes, clients⟩ := s
  simp only at ht
  subst ht
  constructor
  · intro hc d m hgs hmax
    simp only at hgs
    subst hgs
    simp only [frameIntermissionCheck, hmax]
    rw [if_pos]
    exact hc
  · intro hc
    simp only [frameIntermissionCheck]
    rw [if_neg]
    exact hc

/-- The spec's three-client voting scenario: starting from an
intermission over `[(FlatGround, 0), (Islands, 0)]` with an unfinished
30 s countdown and clients 1, 2, 3 connected, the clients vote
FlatGround, FlatGround and Islands. -/
def voteScenarioState : ServerAppState :=
  processVote (processVote (processVote
    (ServerAppState.mk
      (ServerGameState.Intermission
        (IntermissionData.mk [(MapNameD.FlatGround, 0), (MapNameD.Islands, 0)] 30))
      (some (TimerM.mk false)) none 0 [1, 2, 3])
    1 MapNameD.FlatGround) 2 MapNameD.FlatGround) 3 MapNameD.Islands

/-- Witness for C4, the three-client scenario of the spec: after the
votes FlatGround, FlatGround, Islands, all three connected clients have
voted, so even with the countdown NOT elapsed the server transitions to
`OngoingGame` loading FlatGround. -/
theorem claim_C4_intermission_transition_witness :
    voteScenarioState.intermission_timer = some (TimerM.mk false)
    ∧ (TimerM.mk false).finished ≠ true
    ∧ voteScenarioState.intermission_total_votes
        = voteScenarioState.connected_clients.length
    ∧ voteScenarioState.connected_clients ≠ []
    ∧ frameIntermissionCheck 1000 voteScenarioState
      = ServerAppState.mk
          (ServerGameState.OngoingGame
            (OngoingGameData.mk (MapInstanceM.ofName MapNameD.FlatGround) 1480))
          none (some (TimerM.mk false)) 0 [1, 2, 3] :=
  ⟨by decide, by decide, by decide, by decide,
    (@claim_C4_intermission_transition voteScenarioState (TimerM.mk false) 1000
        (by decide)).1 (Or.inr (by decide))
      (IntermissionData.mk [(MapNameD.FlatGround, 2), (MapNameD.Islands, 1)] 30)
      (MapNameD.FlatGround, 2) (by decide) (by decide)⟩

theorem incrementVote_decomp {l1 l2 : List (MapNameD × Nat)} {v : MapNameD} {c : Nat}
    (hnot : v ∉ l1.map Prod.fst) :
    incrementVote (l1 ++ (v, c) :: l2) v = l1 ++ (v, c + 1) :: l2 := by
  induction l1 with
  | nil => simp [incrementVote]
  | cons p l1' ih =>
    obtain ⟨m, k⟩ := p
    have hm : ¬ m = v := by
      intro he
      exact hnot (by simp [he])
    have hrec := ih (fun hmem => hnot (by simp [hmem]))
    simp only [List.cons_append, incrementVote, List.append_eq, if_neg hm, hrec]

/-- C5: while the server is in intermission, a received `Vote` for a map
present in `selectable_maps` increments exactly the first matching
entry's counter by one per message (all other entries untouched, the
total vote count up by one), the effect is independent of the sending
client, and the same vote re-sent is counted again (two messages add
two). -/
theorem claim_C5_vote_increment {s : ServerAppState} {t : TimerM} {d : IntermissionData}
    {l1 l2 : List (MapNameD × Nat)} {v : MapNameD} {c : Nat}
    (ht : s.intermission_timer = some t)
    (hgs : s.game_state = ServerGameState.Intermission d)
    (hsel : d.selectable_maps = l1 ++ (v, c) :: l2)
    (hnot : v ∉ l1.map Prod.fst) :
    (∀ sender : Nat, processVote s sender v =
      ⟨ServerGameState.Intermission ⟨l1 ++ (v, c + 1) :: l2, d.intermission_end_date⟩,
        s.intermission_timer, s.game_round_timer, s.intermission_total_votes + 1,
        s.connected_clients⟩)
    ∧ (∀ s1 s2 : Nat, processVote s s1 v = processVote s s2 v)
    ∧ (∀ s1 s2 : Nat, (processVote (processVote s s1 v) s2 v).game_state =
        ServerGameState.Intermission ⟨l1 ++ (v, c + 2) :: l2, d.intermission_end_date⟩
        ∧ (processVote (processVote s s1 v) s2 v).intermission_total_votes
          = s.intermission_total_votes + 2) := by
  obtain ⟨gs, it, rt, votes, clients⟩ := s
  simp only at ht hgs
  subst ht hgs
  obtain ⟨maps, date⟩ := d
  simp only at hsel
  subst hsel
  have hmem : v ∈ (l1 ++ (v, c) :: l2).map Prod.fst := by simp
  have hone : ∀ sender : Nat,
      processVote ⟨ServerGameState.Intermission ⟨l1 ++ (v, c) :: l2, date⟩,
        some t, rt, votes, clients⟩ sender v =
      ⟨ServerGameState.Intermission ⟨l1 ++ (v, c + 1) :: l2, date⟩,
        some t, rt, votes + 1, clients⟩ := by
    intro sender
    simp only [processVote, hmem, if_pos, incrementVote_decomp hnot]
  refine ⟨hone, fun s1 s2 => by rw [hone s1, hone s2], fun s1 s2 => ?_⟩
  rw [hone s1]
  have hmem' : v ∈ (l1 ++ (v, c + 1) :: l2).map Prod.fst := by simp
  simp [processVote, hmem', incrementVote_decomp hnot]

/-- Witness for C5: a vote for Islands on the tally `[(FlatGround, 3),
(Islands, 1)]` during an intermission. -/
theorem claim_C5_vote_increment_witness :
    processVote
        ⟨ServerGameState.Intermission ⟨[(MapNameD.FlatGround, 3), (MapNameD.Islands, 1)], 30⟩,
          some ⟨false⟩, none, 4, [1, 2]⟩ 9 MapNameD.Islands
      = ⟨ServerGameState.Intermission ⟨[(MapNameD.FlatGround, 3), (MapNameD.Islands, 2)], 30⟩,
          some ⟨false⟩, none, 5, [1, 2]⟩ :=
  (@claim_C5_vote_increment
    ⟨ServerGameState.Intermission ⟨[(MapNameD.FlatGround, 3), (MapNameD.Islands, 1)], 30⟩,
      some ⟨false⟩, none, 4, [1, 2]⟩
    ⟨false⟩ ⟨[(MapNameD.FlatGround, 3), (MapNameD.Islands, 1)], 30⟩
    [(MapNameD.FlatGround, 3)] [] MapNameD.Islands 1
    (by decide) (by decide) (by decide) (by decide)).1 9

/-! ## Session registry, UDP authentication and control-channel broadcast

Models of `setup_client_listener`, `send_request_to_all_clients`
(`src/networking/server.rs`) and `notify_valid_clients_intermission`
(`src/bin/server/ui.rs`).  The `DashMap<SocketAddr, ..>` registry is
modelled as an association list with `Nat` addresses; its iteration order
is the list order. -/

/-- First value stored under the given key, as `DashMap::get` /
`contains_key` observe it. -/
def lookupVal {β : Type} : List (Nat × β) → Nat → Option β
  | [], _ => none
  | p :: rest, a => if p.1 = a then some p.2 else lookupVal rest a

/-- The registry membership test `connected_clients.contains_key(&address)`
of `setup_client_listener` (`src/networking/server.rs`, line 246). -/
def containsKey {β : Type} (l : List (Nat × β)) (a : Nat) : Bool :=
  (lookupVal l a).isSome

/-- `DashMap::remove(&addr)`: drops the entry stored under the key (an
association list holds at most one entry per key when its keys are
nodup, matching the map). -/
def removeAddr {β : Type} : List (Nat × β) → Nat → List (Nat × β)
  | [], _ => []
  | p :: rest, a => if p.1 = a then rest else p :: removeAddr rest a

/-- One inbound UDP datagram as handled by `setup_client_listener`
(`src/networking/server.rs`, lines 241-265): if the sender address is a
registry key, the payload after the 4-byte header is deserialized
(`decode` stands for the external `rmp_serde::from_slice`) and, on
success, forwarded on the simulation-facing channel; an undecodable
payload is logged and dropped.  If the sender is not registered the
datagram is logged as unauthenticated and dropped without ever being
decoded.  The result is the updated channel plus whether the
unauthenticated log line was emitted. -/
def handleDatagram {Req Cl : Type} (decode : List Nat → Option Req)
    (connected_clients : List (Nat × Cl)) (channel : List (Req × Nat))
    (buf : List Nat) (addr : Nat) : List (Req × Nat) × Bool :=
  if containsKey connected_clients addr then
    match decode (buf.drop 4) with
    | some req => (channel ++ [(req, addr)], false)
    | none => (channel, false)
  else (channel, true)

/-- C6: a datagram from an address absent from the session registry is
dropped after logging: the simulation-facing channel is unchanged, and
the result does not depend on the payload or on the deserializer at all
(the datagram is never decoded), so no simulation state can be mutated
by it. -/
theorem claim_C6_unauthenticated_dropped {Req Cl : Type} {clients : List (Nat × Cl)}
    {addr : Nat} (h : containsKey clients addr = false) :
    ∀ (channel : List (Req × Nat)) (d1 d2 : List Nat → Option Req) (b1 b2 : List Nat),
      handleDatagram d1 clients channel b1 addr = (channel, true)
      ∧ handleDatagram d1 clients channel b1 addr = handleDatagram d2 clients channel b2 addr := by
  intro channel d1 d2 b1 b2
  simp [handleDatagram, h]

/-- Witness for C6: address 6 is not registered (only 5 is); the channel
is untouched and two arbitrary distinct deserializers and payloads give
the same outcome. -/
theorem claim_C6_unauthenticated_dropped_witness :
    containsKey [(5, 77)] 6 = false
    ∧ handleDatagram (fun _ => some 0) [(5, 77)] [(1, 5)] [9, 9, 9, 9, 9] 6 = ([(1, 5)], true)
    ∧ handleDatagram (fun _ => some 0) [(5, 77)] [(1, 5)] [9, 9, 9, 9, 9] 6
      = handleDatagram (fun _ => (none : Option Nat)) [(5, 77)] [(1, 5)] [] 6 :=
  ⟨by decide,
    (claim_C6_unauthenticated_dropped (by decide) [(1, 5)] (fun _ => some 0)
      (fun _ => none) [9, 9, 9, 9, 9] []).1,
    (claim_C6_unauthenticated_dropped (by decide) [(1, 5)] (fun _ => some 0)
      (fun _ => none) [9, 9, 9, 9, 9] []).2⟩

/-- A connected client's session as the broadcast code sees it: the
assigned uuid, whether writing to its control-channel half fails, and
the messages its socket has received. -/
structure ClientConn where
  uuid : Nat
  write_fails : Bool
  inbox : List Nat
deriving DecidableEq, Repr

/-- A successful control-channel write of one message. -/
def deliver (c : ClientConn) (m : Nat) : ClientConn :=
  ⟨c.uuid, c.write_fails, c.inbox ++ [m]⟩

/-- `send_request_to_all_clients` (`src/networking/server.rs`, lines
313-339), used among others for the statistics broadcast (line 180): the
write result is `.unwrap()`ed, so the first failing client panics the
broadcasting task.  The result is the registry after the iteration
(earlier clients got the message, the failing client and everything
after it are untouched) plus whether the task panicked; no entry is ever
removed. -/
def sendRequestToAllClients : List (Nat × ClientConn) → Nat → List (Nat × ClientConn) × Bool
  | [], _ => ([], false)
  | (a, c) :: rest, m =>
    if c.write_fails then ((a, c) :: rest, true)
    else
      let r := sendRequestToAllClients rest m
      ((a, deliver c m) :: r.1, r.2)

/-- First pass of `notify_valid_clients_intermission`
(`src/bin/server/ui.rs`, lines 301-325): every client is written to; a
failing write is logged and the client's address pushed onto
`erroring_socket_addresses`, without aborting the loop.  Returns the
updated registry and the collected erroring addresses in iteration
order. -/
def notifyBroadcastPhase : List (Nat × ClientConn) → Nat → List (Nat × ClientConn) × List Nat
  | [], _ => ([], [])
  | (a, c) :: rest, m =>
    let r := notifyBroadcastPhase rest m
    if c.write_fails then ((a, c) :: r.1, a :: r.2)
    else ((a, deliver c m) :: r.1, r.2)

/-- `notify_valid_clients_intermission` (`src/bin/server/ui.rs`, lines
283-331): broadcast to every client, then remove each erroring address
from the registry. -/
def notifyValidClientsIntermission (clients : List (Nat × ClientConn)) (m : Nat) :
    List (Nat × ClientConn) :=
  (notifyBroadcastPhase clients m).2.foldl removeAddr (notifyBroadcastPhase clients m).1

theorem notifyBroadcastPhase_fst (l : List (Nat × ClientConn)) (m : Nat) :
    (notifyBroadcastPhase l m).1.map Prod.fst = l.map Prod.fst := by
  induction l with
  | nil => rfl
  | cons p rest ih =>
    obtain ⟨a, c⟩ := p
    by_cases hf : c.write_fails
    · simp [notifyBroadcastPhase, hf, ih]
    · simp [notifyBroadcastPhase, hf, ih]

theorem notifyBroadcastPhase_mem_ok {l : List (Nat × ClientConn)} {m : Nat}
    {a : Nat} {c : ClientConn} (hmem : (a, c) ∈ l) (hok : c.write_fails = false) :
    (a, deliver c m) ∈ (notifyBroadcastPhase l m).1 := by
  induction l with
  | nil => simp at hmem
  | cons p rest ih =>
    obtain ⟨a', c'⟩ := p
    rcases List.mem_cons.mp hmem with he | hmem'
    · injection he with h1 h2
      subst h1
      subst h2
      simp [notifyBroadcastPhase, hok]
    · by_cases hf : c'.write_fails
      · simp only [notifyBroadcastPhase, if_pos hf]
        exact List.mem_cons_of_mem _ (ih hmem')
      · simp only [notifyBroadcastPhase, if_neg hf]
        exact List.mem_cons_of_mem _ (ih hmem')

theorem notifyBroadcastPhase_errs_iff {l : List (Nat × ClientConn)} {m : Nat} {a : Nat} :
    a ∈ (notifyBroadcastPhase l m).2 ↔ ∃ c, (a, c) ∈ l ∧ c.write_fails = true := by
  induction l with
  | nil => simp [notifyBroadcastPhase]
  | cons p rest ih =>
    obtain ⟨a', c'⟩ := p
    by_cases hf : c'.write_fails
    · simp only [notifyBroadcastPhase, if_pos hf]
      constructor
      · intro hm
        rcases List.mem_cons.mp hm with he | hm'
        · exact ⟨c', by simp [he], hf⟩
        · obtain ⟨c, hc, hcf⟩ := ih.mp hm'
          exact ⟨c, by simp [hc], hcf⟩
      · intro ⟨c, hc, hcf⟩
        rcases List.mem_cons.mp hc with he | hc'
        · injection he with h1 _
          simp [h1]
        · exact List.mem_cons_of_mem _ (ih.mpr ⟨c, hc', hcf⟩)
    · simp only [notifyBroadcastPhase, if_neg hf]
      constructor
      · intro hm
        obtain ⟨c, hc, hcf⟩ := ih.mp hm
        exact ⟨c, by simp [hc], hcf⟩
      · intro ⟨c, hc, hcf⟩
        rcases List.mem_cons.mp hc with he | hc'
        · injection he with h1 h2
          subst h1
          subst h2
          exact absurd hcf (by simp [hf])
        · exact ih.mpr ⟨c, hc', hcf⟩

theorem key_unique {β : Type} {l : List (Nat × β)} {a : Nat} {c1 c2 : β}
    (hnd : (l.map Prod.fst).Nodup) (h1 : (a, c1) ∈ l) (h2 : (a, c2) ∈ l) : c1 = c2 := by
  induction l with
  | nil => simp at h1
  | cons p rest ih =>
    rw [List.map_cons] at hnd
    obtain ⟨hka, hrest⟩ := List.nodup_cons.mp hnd
    rcases List.mem_cons.mp h1 with he1 | h1'
    · rcases List.mem_cons.mp h2 with he2 | h2'
      · rw [← he1] at he2
        injection he2 with _ hv
        exact hv.symm
      · exfalso
        apply hka
        have : p.1 = a := by rw [← he1]
        rw [this]
        exact List.mem_map.mpr ⟨(a, c2), h2', rfl⟩
    · rcases List.mem_cons.mp h2 with he2 | h2'
      · exfalso
        apply hka
        have : p.1 = a := by rw [← he2]
        rw [this]
        exact List.mem_map.mpr ⟨(a, c1), h1', rfl⟩
      · exact ih hrest h1' h2'

theorem mem_removeAddr_of_ne {β : Type} {l : List (Nat × β)} {x : Nat × β} {a : Nat}
    (hx : x ∈ l) (hne : x.1 ≠ a) : x ∈ removeAddr l a := by
  induction l with
  | nil => simp at hx
  | cons p rest ih =>
    rcases List.mem_cons.mp hx with he | hx'
    · subst he
      simp only [removeAddr, if_neg hne]
      exact List.mem_cons_self _ _
    · by_cases hp : p.1 = a
      · simp only [removeAddr, if_pos hp]
        exact hx'
      · simp only [removeAddr, if_neg hp]
        exact List.mem_cons_of_mem _ (ih hx')

theorem removeAddr_subset {β : Type} {l : List (Nat × β)} {x : Nat × β} {a : Nat}
    (hx : x ∈ removeAddr l a) : x ∈ l := by
  induction l with
  | nil => simp [removeAddr] at hx
  | cons p rest ih =>
    by_cases hp : p.1 = a
    · simp only [removeAddr, if_pos hp] at hx
      exact List.mem_cons_of_mem _ hx
    · simp only [removeAddr, if_neg hp] at hx
      rcases List.mem_cons.mp hx with he | hx'
      · simp [he]
      · exact List.mem_cons_of_mem _ (ih hx')

theorem removeAddr_fst_nodup {β : Type} {l : List (Nat × β)} {a : Nat}
    (hnd : (l.map Prod.fst).Nodup) : ((removeAddr l a).map Prod.fst).Nodup := by
  induction l with
  | nil => simp [removeAddr]
  | cons p rest ih =>
    rw [List.map_cons] at hnd
    obtain ⟨hka, hrest⟩ := List.nodup_cons.mp hnd
    by_cases hp : p.1 = a
    · simp only [removeAddr, if_pos hp]
      exact hrest
    · simp only [removeAddr, if_neg hp, List.map_cons]
      refine List.nodup_cons.mpr ⟨?_, ih hrest⟩
      intro hmem
      apply hka
      obtain ⟨x, hx, hx1⟩ := List.mem_map.mp hmem
      exact List.mem_map.mpr ⟨x, removeAddr_subset hx, hx1⟩

theorem not_mem_removeAddr {β : Type} {l : List (Nat × β)} {a : Nat} {c : β}
    (hnd : (l.map Prod.fst).Nodup) : (a, c) ∉ removeAddr l a := by
  induction l with
  | nil => simp [removeAddr]
  | cons p rest ih =>
    rw [List.map_cons] at hnd
    obtain ⟨hka, hrest⟩ := List.nodup_cons.mp hnd
    by_cases hp : p.1 = a
    · simp only [removeAddr, if_pos hp]
      intro hmem
      apply hka
      rw [hp]
      exact List.mem_map.mpr ⟨(a, c), hmem, rfl⟩
    · simp only [removeAddr, if_neg hp]
      intro hmem
      rcases List.mem_cons.mp hmem with he | hmem'
      · exact hp (by rw [← he])
      · exact ih hrest hmem'

theorem foldRemove_subset {β : Type} {errs : List Nat} :
    ∀ {l : List (Nat × β)} {x : Nat × β}, x ∈ errs.foldl removeAddr l → x ∈ l := by
  induction errs with
  | nil => intro l x hx; exact hx
  | cons b errs' ih =>
    intro l x hx
    exact removeAddr_subset (ih hx)

theorem mem_foldRemove {β : Type} {errs : List Nat} :
    ∀ {l : List (Nat × β)} {x : Nat × β}, x ∈ l → x.1 ∉ errs → x ∈ errs.foldl removeAddr l := by
  induction errs with
  | nil => intro l x hx _; exact hx
  | cons b errs' ih =>
    intro l x hx hne
    have hxb : x.1 ≠ b := fun he => hne (by simp [he])
    exact ih (mem_removeAddr_of_ne hx hxb) (fun he => hne (by simp [he]))

theorem foldRemove_fst_nodup {β : Type} {errs : List Nat} :
    ∀ {l : List (Nat × β)}, (l.map Prod.fst).Nodup →
      ((errs.foldl removeAddr l).map Prod.fst).Nodup := by
  induction errs with
  | nil => intro l hnd; exact hnd
  | cons b errs' ih =>
    intro l hnd
    exact ih (removeAddr_fst_nodup hnd)

theorem not_mem_foldRemove {β : Type} {errs : List Nat} :
    ∀ {l : List (Nat × β)} {a : Nat} {c : β}, (l.map Prod.fst).Nodup → a ∈ errs →
      (a, c) ∉ errs.foldl removeAddr l := by
  induction errs with
  | nil => intro l a c _ ha; simp at ha
  | cons b errs' ih =>
    intro l a c hnd ha
    by_cases hab : a = b
    · subst hab
      intro hmem
      exact not_mem_removeAddr hnd (foldRemove_subset hmem)
    · have ha' : a ∈ errs' := by
        rcases List.mem_cons.mp ha with he | ha'
        · exact absurd he hab
        · exact ha'
      exact ih (removeAddr_fst_nodup hnd) ha'

/-- C7 (amended): during the intermission broadcast
(`notify_valid_clients_intermission`) a write failure on one client does
not abort the broadcast — every non-failing client still receives the
message — and every failing client is removed from the registry
afterwards.  This does NOT hold for every control-channel broadcast: the
statistics broadcast path `send_request_to_all_clients` unwraps the
write result, so the first failure panics the task, later clients do not
receive the message and the failing client stays registered (see the
counterexample). -/
theorem claim_C7_intermission_broadcast_isolation {clients : List (Nat × ClientConn)}
    {m : Nat} (hnd : (clients.map Prod.fst).Nodup) :
    (∀ p ∈ clients, p.2.write_fails = false →
      (p.1, deliver p.2 m) ∈ notifyValidClientsIntermission clients m)
    ∧ (∀ p ∈ clients, p.2.write_fails = true →
      ∀ c, (p.1, c) ∉ notifyValidClientsIntermission clients m) := by
  have hnd1 : ((notifyBroadcastPhase clients m).1.map Prod.fst).Nodup := by
    rw [notifyBroadcastPhase_fst]
    exact hnd
  constructor
  · intro p hp hok
    obtain ⟨a, c⟩ := p
    have hin : (a, deliver c m) ∈ (notifyBroadcastPhase clients m).1 :=
      notifyBroadcastPhase_mem_ok hp hok
    have hnerr : a ∉ (notifyBroadcastPhase clients m).2 := by
      intro herr
      obtain ⟨c', hc', hcf⟩ := notifyBroadcastPhase_errs_iff.mp herr
      have : c' = c := key_unique hnd hc' hp
      rw [this] at hcf
      rw [hok] at hcf
      exact Bool.false_ne_true hcf
    exact mem_foldRemove hin hnerr
  · intro p hp hfail c
    obtain ⟨a, c0⟩ := p
    have herr : a ∈ (notifyBroadcastPhase clients m).2 :=
      notifyBroadcastPhase_errs_iff.mpr ⟨c0, hp, hfail⟩
    exact not_mem_foldRemove hnd1 herr

/-- Witness for C7 (amended): clients 1 (failing) and 2 (ok); client 2
receives the message and client 1 is gone from the registry. -/
theorem claim_C7_intermission_broadcast_isolation_witness :
    ((([(1, ClientConn.mk 11 true []), (2, ClientConn.mk 22 false [])] :
        List (Nat × ClientConn)).map Prod.fst).Nodup)
    ∧ (2, ClientConn.mk 22 false [5]) ∈
        notifyValidClientsIntermission
          [(1, ClientConn.mk 11 true []), (2, ClientConn.mk 22 false [])] 5
    ∧ ∀ c, (1, c) ∉
        notifyValidClientsIntermission
          [(1, ClientConn.mk 11 true []), (2, ClientConn.mk 22 false [])] 5 :=
  ⟨by decide,
    (@claim_C7_intermission_broadcast_isolation
      [(1, ClientConn.mk 11 true []), (2, ClientConn.mk 22 false [])] 5 (by decide)).1
      (2, ClientConn.mk 22 false []) (by decide) (by decide),
    fun c => (@claim_C7_intermission_broadcast_isolation
      [(1, ClientConn.mk 11 true []), (2, ClientConn.mk 22 false [])] 5 (by decide)).2
      (1, ClientConn.mk 11 true []) (by decide) (by decide) c⟩

/-- C7 (counterexample): a statistics broadcast via
`send_request_to_all_clients` to clients 1 (whose write fails) and
2 (healthy).  The unwrap panics at client 1: client 2 never receives the
message and client 1 is still present in the registry, contradicting
both halves of the claim. -/
theorem claim_C7_counterexample :
    sendRequestToAllClients [(1, ClientConn.mk 11 true []), (2, ClientConn.mk 22 false [])] 5
      = ([(1, ClientConn.mk 11 true []), (2, ClientConn.mk 22 false [])], true)
    ∧ (2, ClientConn.mk 22 false [5]) ∉
        (sendRequestToAllClients
          [(1, ClientConn.mk 11 true []), (2, ClientConn.mk 22 false [])] 5).1
    ∧ lookupVal (sendRequestToAllClients
          [(1, ClientConn.mk 11 true []), (2, ClientConn.mk 22 false [])] 5).1 1
      = some (ClientConn.mk 11 true []) := by
  refine ⟨by decide, by decide, by decide⟩

/-! ## Client statistics ordering

Model of `ClientStatistics` (`src/networking/mod.rs`, lines 250-308).
The struct derives `Ord` (field declaration order: uuid, username, kills,
deaths, score) and hand-implements `PartialOrd` (kills, then score, then
deaths, then uuid; username never consulted).  The server-side set
`connected_clients_stats : BTreeSet<ClientStatistics>`
(`src/networking/server.rs`, line 58) orders its elements with
`Ord::cmp`, i.e. with the derived, uuid-first comparison. -/

/-- Placeholder username used in concrete witnesses. -/
def noUsername : String := ""

/-- The `ClientStatistics` record (`src/networking/mod.rs`, lines
250-257), fields in declaration order; `u32` counters and the `Uuid` are
modelled as `Nat`. -/
structure ClientStatistics where
  uuid : Nat
  username : String
  kills : Nat
  deaths : Nat
  score : Nat
deriving DecidableEq, Repr

/-- The derived `Ord::cmp` of `ClientStatistics`: lexicographic in field
declaration order — uuid, then username, then kills, then deaths, then
score.  This is the comparator `BTreeSet` uses. -/
def statCmp (a b : ClientStatistics) : Ordering :=
  match compare a.uuid b.uuid with
  | Ordering.eq =>
    match compare a.username b.username with
    | Ordering.eq =>
      match compare a.kills b.kills with
      | Ordering.eq =>
        match compare a.deaths b.deaths with
        | Ordering.eq => compare a.score b.score
        | o => o
      | o => o
    | o => o
  | o => o

/-- The hand-written `PartialOrd::partial_cmp` of `ClientStatistics`
(`src/networking/mod.rs`, lines 286-307): kills first, then score, then
deaths, then uuid; username is ignored.  All component comparisons are
total, so the result is always `some`. -/
def statPartialCmp (a b : ClientStatistics) : Option Ordering :=
  match compare a.kills b.kills with
  | Ordering.eq =>
    match compare a.score b.score with
    | Ordering.eq =>
      match compare a.deaths b.deaths with
      | Ordering.eq => some (compare a.uuid b.uuid)
      | o => some o
    | o => some o
  | o => some o

/-- The total order the claim asserts for the stored set: score first,
then kills, then deaths, then uuid (written from the claim, to be
compared against `statCmp`). -/
def claimedStatCmp (a b : ClientStatistics) : Ordering :=
  match compare a.score b.score with
  | Ordering.eq =>
    match compare a.kills b.kills with
    | Ordering.eq =>
      match compare a.deaths b.deaths with
      | Ordering.eq => compare a.uuid b.uuid
      | o => o
    | o => o
  | o => o

/-- C8 (counterexample): `a` has the smaller uuid but the larger score.
The claimed score-first order puts `b` before `a` (`gt`), while the
comparator the stored set actually uses (the derived, uuid-first
`Ord`) puts `a` before `b` (`lt`); the manual `PartialOrd` (kills-first)
also disagrees with the claimed tuple order on uuid-equal inputs. -/
theorem claim_C8_counterexample :
    statCmp ⟨1, noUsername, 0, 0, 5⟩ ⟨2, noUsername, 0, 0, 3⟩ = Ordering.lt
    ∧ claimedStatCmp ⟨1, noUsername, 0, 0, 5⟩ ⟨2, noUsername, 0, 0, 3⟩ = Ordering.gt
    ∧ statCmp ⟨1, noUsername, 0, 0, 5⟩ ⟨2, noUsername, 0, 0, 3⟩
      ≠ claimedStatCmp ⟨1, noUsername, 0, 0, 5⟩ ⟨2, noUsername, 0, 0, 3⟩ := by
  refine ⟨by decide, by decide, by decide⟩

/-- C8 (amended): the stored set's comparator (the derived `Ord`) is
lexicographic in FIELD DECLARATION order — uuid first, then username,
kills, deaths, and score only as the final component — and the manual
`PartialOrd` compares kills, then score, then deaths, then uuid, never
consulting username.  (The claimed score-first order holds for
neither.) -/
theorem claim_C8_set_order (a b : ClientStatistics) :
    (compare a.uuid b.uuid ≠ Ordering.eq → statCmp a b = compare a.uuid b.uuid)
    ∧ (compare a.uuid b.uuid = Ordering.eq → compare a.username b.username ≠ Ordering.eq →
        statCmp a b = compare a.username b.username)
    ∧ (compare a.uuid b.uuid = Ordering.eq → compare a.username b.username = Ordering.eq →
        compare a.kills b.kills ≠ Ordering.eq → statCmp a b = compare a.kills b.kills)
    ∧ (compare a.uuid b.uuid = Ordering.eq → compare a.username b.username = Ordering.eq →
        compare a.kills b.kills = Ordering.eq → compare a.deaths b.deaths ≠ Ordering.eq →
        statCmp a b = compare a.deaths b.deaths)
    ∧ (compare a.uuid b.uuid = Ordering.eq → compare a.username b.username = Ordering.eq →
        compare a.kills b.kills = Ordering.eq → compare a.deaths b.deaths = Ordering.eq →
        statCmp a b = compare a.score b.score)
    ∧ (compare a.kills b.kills ≠ Ordering.eq →
        statPartialCmp a b = some (compare a.kills b.kills))
    ∧ (compare a.kills b.kills = Ordering.eq → compare a.score b.score ≠ Ordering.eq →
        statPartialCmp a b = some (compare a.score b.score))
    ∧ (compare a.kills b.kills = Ordering.eq → compare a.score b.score = Ordering.eq →
        compare a.deaths b.deaths ≠ Ordering.eq →
        statPartialCmp a b = some (compare a.deaths b.deaths))
    ∧ (compare a.kills b.kills = Ordering.eq → compare a.score b.score = Ordering.eq →
        compare a.deaths b.deaths = Ordering.eq →
        statPartialCmp a b = some (compare a.uuid b.uuid)) := by
  refine ⟨?_, ?_, ?_, ?_, ?_, ?_, ?_, ?_, ?_⟩
  · intro h
    cases hc : compare a.uuid b.uuid with
    | eq => exact absurd hc h
    | lt => simp [statCmp, hc]
    | gt => simp [statCmp, hc]
  · intro h1 h
    cases hc : compare a.username b.username with
    | eq => exact absurd hc h
    | lt => simp [statCmp, h1, hc]
    | gt => simp [statCmp, h1, hc]
  · intro h1 h2 h
    cases hc : compare a.kills b.kills with
    | eq => exact absurd hc h
    | lt => simp [statCmp, h1, h2, hc]
    | gt => simp [statCmp, h1, h2, hc]
  · intro h1 h2 h3 h
    cases hc : compare a.deaths b.deaths with
    | eq => exact absurd hc h
    | lt => simp [statCmp, h1, h2, h3, hc]
    | gt => simp [statCmp, h1, h2, h3, hc]
  · intro h1 h2 h3 h4
    simp [statCmp, h1, h2, h3, h4]
  · intro h
    cases hc : compare a.kills b.kills with
    | eq => exact absurd hc h
    | lt => simp [statPartialCmp, hc]
    | gt => simp [statPartialCmp, hc]
  · intro h1 h
    cases hc : compare a.score b.score with
    | eq => exact absurd hc h
    | lt => simp [statPartialCmp, h1, hc]
    | gt => simp [statPartialCmp, h1, hc]
  · intro h1 h2 h
    cases hc : compare a.deaths b.deaths with
    | eq => exact absurd hc h
    | lt => simp [statPartialCmp, h1, h2, hc]
    | gt => simp [statPartialCmp, h1, h2, hc]
  · intro h1 h2 h3
    simp [statPartialCmp, h1, h2, h3]

/-- Witness for C8 (amended): on the counterexample pair, uuid decides
the stored order and, kills and score deciding the manual comparison,
`statPartialCmp` returns score's verdict. -/
theorem claim_C8_set_order_witness :
    compare (1 : Nat) 2 ≠ Ordering.eq
    ∧ statCmp ⟨1, noUsername, 0, 0, 5⟩ ⟨2, noUsername, 0, 0, 3⟩ = compare (1 : Nat) 2
    ∧ compare (0 : Nat) 0 = Ordering.eq
    ∧ compare (5 : Nat) 3 ≠ Ordering.eq
    ∧ statPartialCmp ⟨1, noUsername, 0, 0, 5⟩ ⟨2, noUsername, 0, 0, 3⟩
      = some (compare (5 : Nat) 3) :=
  ⟨by decide,
    (claim_C8_set_order ⟨1, noUsername, 0, 0, 5⟩ ⟨2, noUsername, 0, 0, 3⟩).1 (by decide),
    by decide, by decide,
    (claim_C8_set_order ⟨1, noUsername, 0, 0, 5⟩ ⟨2, noUsername, 0, 0, 3⟩).2.2.2.2.2.2.1
      (by decide) (by decide)⟩

/-! ## Wire codec framing

Model of `write_to_buf_with_len` (`src/networking/mod.rs`, lines
216-232) and of the frame reader used by `exchange_metadata`
(`src/networking/client.rs`, lines 200-226): a 4-byte big-endian length
header followed by exactly that many payload bytes.  Bytes are `Nat`s;
the serializer/deserializer pair (`rmp_serde`, an external crate) is a
parameter. -/

/-- Rust's `(len as u32).to_be_bytes()`: the length is truncated to 32
bits and emitted as four big-endian bytes. -/
def u32be (n : Nat) : List Nat :=
  [n % 2 ^ 32 / 2 ^ 24, n % 2 ^ 32 / 2 ^ 16 % 256, n % 2 ^ 32 / 2 ^ 8 % 256, n % 256]

/-- `write_to_buf_with_len`: the header bytes extended with the slice,
written as one buffer. -/
def writeToBufWithLen (slice : List Nat) : List Nat :=
  u32be slice.length ++ slice

/-- The reader side (`exchange_metadata`, `src/networking/client.rs`):
`read_exact` four header bytes, assemble the big-endian `u32`, then
`read_exact` exactly that many payload bytes; the remainder of the
stream is left for the next frame.  `none` models a blocked/failed
read. -/
def readLengthPrefixed (stream : List Nat) : Option (List Nat × List Nat) :=
  match stream with
  | b0 :: b1 :: b2 :: b3 :: rest =>
    if ((b0 * 256 + b1) * 256 + b2) * 256 + b3 ≤ rest.length then
      some (rest.take (((b0 * 256 + b1) * 256 + b2) * 256 + b3),
        rest.drop (((b0 * 256 + b1) * 256 + b2) * 256 + b3))
    else none
  | _ => none

/-- Serialize a message and frame it (sender side of the control
channel). -/
def encodeMessage {M : Type} (ser : M → List Nat) (m : M) : List Nat :=
  writeToBufWithLen (ser m)

/-- Read one frame and deserialize its payload (receiver side); returns
the decoded message and the unconsumed rest of the stream. -/
def decodeMessage {M : Type} (deser : List Nat → Option M) (stream : List Nat) :
    Option (M × List Nat) :=
  match readLengthPrefixed stream with
  | some (payload, rest) =>
    match deser payload with
    | some v => some (v, rest)
    | none => none
  | none => none

theorem u32be_reassemble {n : Nat} (h : n < 2 ^ 32) :
    ((n % 2 ^ 32 / 2 ^ 24 * 256 + n % 2 ^ 32 / 2 ^ 16 % 256) * 256
      + n % 2 ^ 32 / 2 ^ 8 % 256) * 256 + n % 256 = n := by
  omega

/-- C9: for every message value whose serializer round-trips (the
payload codec is the external `rmp_serde`; its round-trip is a
hypothesis) and whose serialized form fits the 32-bit length prefix,
framing the message and then reading the frame back — 4-byte big-endian
length, exactly that many payload bytes, deserialize — yields the
original message and leaves any following bytes untouched. -/
theorem claim_C9_frame_roundtrip {M : Type} (ser : M → List Nat)
    (deser : List Nat → Option M) (m : M) (rest : List Nat)
    (hser : deser (ser m) = some m) (hlen : (ser m).length < 2 ^ 32) :
    decodeMessage deser (encodeMessage ser m ++ rest) = some (m, rest) := by
  have hb := u32be_reassemble hlen
  simp only [encodeMessage, writeToBufWithLen, u32be, List.cons_append, List.nil_append,
    decodeMessage, readLengthPrefixed, hb]
  rw [if_pos (by simp)]
  rw [List.take_left, List.drop_left]
  simp [hser]

/-- Witness serializer: one byte per small natural number. -/
def serByte (n : Nat) : List Nat := [n % 256]

/-- Witness deserializer: accepts exactly one byte. -/
def deserByte : List Nat → Option Nat
  | [x] => some x
  | _ => none

/-- Witness for C9: the concrete message 7 with a one-byte codec and a
trailing byte 9 on the stream. -/
theorem claim_C9_frame_roundtrip_witness :
    deserByte (serByte 7) = some 7
    ∧ (serByte 7).length < 2 ^ 32
    ∧ decodeMessage deserByte (encodeMessage serByte 7 ++ [9]) = some (7, [9]) :=
  ⟨by decide, by decide, claim_C9_frame_roundtrip serByte deserByte 7 [9] (by decide) (by decide)⟩

/-! ## Server-side input application

Model of `recv_tick` (`src/bin/server/systems.rs`, lines 56-134), the
consumer of datagrams accepted by `setup_client_listener`.  Each
`RemoteClientGameRequest` carries a client-chosen `id` and a batch of
inputs; `recv_tick` walks the pawn query for the pawn whose uuid equals
`id` and applies every input to it via `handle_game_input`, despawning
the pawn and removing the SENDER's registry entry when an `Exit` input
occurs.  `handle_game_input` itself (movement, attack, effects —
`src/game/pawns.rs`, lines 126-168) mutates only the matched pawn, so it
is carried as the parameter `applyInput`. -/

/-- The `GameInput` enum (`src/networking/mod.rs`, lines 236-248). -/
inductive GameInput where
  | MoveJump
  | MoveDuck
  | MoveRight
  | MoveLeft
  | Attack
  | Defend
  | Join
  | Exit
deriving DecidableEq, Repr

/-- A server-side pawn: its wire uuid plus the rest of its simulation
state (position, velocity, effects, ...), opaque to the dispatch
logic. -/
structure ServerPawn (P : Type) where
  uuid : Nat
  data : P
deriving DecidableEq, Repr

/-- The `RemoteClientGameRequest` message (`src/networking/mod.rs`,
lines 18-26). -/
structure RemoteClientGameRequest where
  id : Nat
  inputs : List GameInput
deriving DecidableEq, Repr

/-- The inner input loop of `recv_tick` (lines 93-129): every input is
handed to `handle_game_input`; after an `Exit` input the pawn is
despawned and the loop breaks.  Returns the pawn after the processed
inputs and whether an `Exit` occurred. -/
def applyInputsUntilExit {P : Type} (applyInput : ServerPawn P → GameInput → ServerPawn P) :
    ServerPawn P → List GameInput → ServerPawn P × Bool
  | p, [] => (p, false)
  | p, i :: rest =>
    if i = GameInput.Exit then (applyInput p i, true)
    else applyInputsUntilExit applyInput (applyInput p i) rest

/-- The pawn-query walk of `recv_tick` (lines 86-130): the first pawn
whose uuid equals the request's `id` field receives the inputs; on
`Exit` it is despawned.  Returns the updated pawn list and whether an
`Exit` was handled. -/
def processPlayers {P : Type} (applyInput : ServerPawn P → GameInput → ServerPawn P) :
    List (ServerPawn P) → RemoteClientGameRequest → List (ServerPawn P) × Bool
  | [], _ => ([], false)
  | p :: rest, req =>
    if p.uuid = req.id then
      if (applyInputsUntilExit applyInput p req.inputs).2 then (rest, true)
      else ((applyInputsUntilExit applyInput p req.inputs).1 :: rest, false)
    else
      (p :: (processPlayers applyInput rest req).1, (processPlayers applyInput rest req).2)

/-- One accepted datagram processed by `recv_tick`: the pawns are
updated purely from the request; only when an `Exit` input was handled
is the SENDER's address removed from the registry
(`connected_clients_clone.remove(&address).unwrap()`, line 117) and the
removed entry's uuid broadcast.  `none` models the panic of that
`unwrap` when the address is unregistered. -/
def processGameRequest {P : Type} (applyInput : ServerPawn P → GameInput → ServerPawn P)
    (players : List (ServerPawn P)) (registry : List (Nat × Nat))
    (req : RemoteClientGameRequest) (addr : Nat) :
    Option (List (ServerPawn P) × List (Nat × Nat) × Option Nat) :=
  if (processPlayers applyInput players req).2 then
    match lookupVal registry addr with
    | some uuid =>
      some ((processPlayers applyInput players req).1, removeAddr registry addr, some uuid)
    | none => none
  else some ((processPlayers applyInput players req).1, registry, none)

/-- Rewriting of the first pawn carrying the given uuid (used to state
what `recv_tick` does on an Exit-free batch). -/
def updateFirstPawn {P : Type} :
    List (ServerPawn P) → Nat → (ServerPawn P → ServerPawn P) → List (ServerPawn P)
  | [], _, _ => []
  | p :: rest, i, f => if p.uuid = i then f p :: rest else p :: updateFirstPawn rest i f

theorem applyInputsUntilExit_no_exit {P : Type}
    {applyInput : ServerPawn P → GameInput → ServerPawn P} {inputs : List GameInput} :
    ∀ {p : ServerPawn P}, GameInput.Exit ∉ inputs →
      applyInputsUntilExit applyInput p inputs = (inputs.foldl applyInput p, false) := by
  induction inputs with
  | nil => intro p _; rfl
  | cons i rest ih =>
    intro p hni
    have hiex : ¬ i = GameInput.Exit := fun he => hni (by simp [he])
    simp only [applyInputsUntilExit, if_neg hiex, List.foldl_cons]
    exact ih (fun hmem => hni (by simp [hmem]))

theorem processPlayers_no_exit {P : Type}
    {applyInput : ServerPawn P → GameInput → ServerPawn P}
    {players : List (ServerPawn P)} {req : RemoteClientGameRequest}
    (hne : GameInput.Exit ∉ req.inputs) :
    processPlayers applyInput players req =
      (updateFirstPawn players req.id (fun p => req.inputs.foldl applyInput p), false) := by
  induction players with
  | nil => rfl
  | cons p rest ih =>
    by_cases hp : p.uuid = req.id
    · simp [processPlayers, hp, applyInputsUntilExit_no_exit hne, updateFirstPawn]
    · simp [processPlayers, hp, ih, updateFirstPawn]

/-- C10: the server applies an accepted datagram's inputs to the pawn
whose uuid equals the `id` field inside the datagram, never checking
that this id matches the uuid registered for the sending endpoint: the
resulting pawn list is the same whatever registered endpoint sent the
request (registry and sender address only influence the disconnect
bookkeeping of an `Exit` input), and for an `Exit`-free batch it is
exactly the first pawn with uuid = `id` updated by folding the inputs
through `handle_game_input`. -/
theorem claim_C10_sender_independent_dispatch {P : Type}
    (applyInput : ServerPawn P → GameInput → ServerPawn P) (players : List (ServerPawn P))
    (reg1 reg2 : List (Nat × Nat)) (req : RemoteClientGameRequest) (a1 a2 : Nat)
    (h1 : containsKey reg1 a1 = true) (h2 : containsKey reg2 a2 = true) :
    (∃ pl, (processGameRequest applyInput players reg1 req a1).map (fun t => t.1) = some pl
      ∧ (processGameRequest applyInput players reg2 req a2).map (fun t => t.1) = some pl)
    ∧ (GameInput.Exit ∉ req.inputs →
      processGameRequest applyInput players reg1 req a1 =
        some (updateFirstPawn players req.id (fun p => req.inputs.foldl applyInput p),
          reg1, none)) := by
  unfold containsKey at h1 h2
  obtain ⟨u1, hu1⟩ := Option.isSome_iff_exists.mp h1
  obtain ⟨u2, hu2⟩ := Option.isSome_iff_exists.mp h2
  constructor
  · refine ⟨(processPlayers applyInput players req).1, ?_, ?_⟩
    · by_cases hr : (processPlayers applyInput players req).2
      · simp [processGameRequest, hr, hu1]
      · simp [processGameRequest, hr]
    · by_cases hr : (processPlayers applyInput players req).2
      · simp [processGameRequest, hr, hu2]
      · simp [processGameRequest, hr]
  · intro hne
    have hp := @processPlayers_no_exit P applyInput players req hne
    simp [processGameRequest, hp]

/-- Input effect used by the C10 witness: each processed input bumps a
counter in the pawn payload. -/
def bumpPawn (p : ServerPawn Nat) (i : GameInput) : ServerPawn Nat :=
  ⟨p.uuid, p.data + 1⟩

/-- Witness for C10: two different registered endpoints (address 1
registered to uuid 100, address 2 to uuid 200) send the same request
carrying id 7; the pawn with uuid 7 is updated identically in both
cases. -/
theorem claim_C10_sender_independent_dispatch_witness :
    containsKey [(1, 100)] 1 = true
    ∧ containsKey [(2, 200)] 2 = true
    ∧ GameInput.Exit ∉ [GameInput.MoveLeft, GameInput.Attack]
    ∧ (∃ pl, (processGameRequest bumpPawn [⟨3, 0⟩, ⟨7, 0⟩] [(1, 100)]
          ⟨7, [GameInput.MoveLeft, GameInput.Attack]⟩ 1).map (fun t => t.1) = some pl
        ∧ (processGameRequest bumpPawn [⟨3, 0⟩, ⟨7, 0⟩] [(2, 200)]
          ⟨7, [GameInput.MoveLeft, GameInput.Attack]⟩ 2).map (fun t => t.1) = some pl)
    ∧ processGameRequest bumpPawn [⟨3, 0⟩, ⟨7, 0⟩] [(1, 100)]
          ⟨7, [GameInput.MoveLeft, GameInput.Attack]⟩ 1
      = some (updateFirstPawn [⟨3, 0⟩, ⟨7, 0⟩] 7
          (fun p => [GameInput.MoveLeft, GameInput.Attack].foldl bumpPawn p), [(1, 100)], none) :=
  ⟨by decide, by decide, by decide,
    (claim_C10_sender_independent_dispatch bumpPawn [⟨3, 0⟩, ⟨7, 0⟩] [(1, 100)] [(2, 200)]
      ⟨7, [GameInput.MoveLeft, GameInput.Attack]⟩ 1 2 (by decide) (by decide)).1,
    (claim_C10_sender_independent_dispatch bumpPawn [⟨3, 0⟩, ⟨7, 0⟩] [(1, 100)] [(2, 200)]
      ⟨7, [GameInput.MoveLeft, GameInput.Attack]⟩ 1 2 (by decide) (by decide)).2 (by decide)⟩

end PunchAFriend
